import Mathlib

/-!
Verification development for `microosc.py` (a minimal OSC 1.0 codec, server and
client). The Python module is shallowly embedded: byte buffers become lists of
naturals, the mutable `bytearray` is threaded explicitly, exceptions become an
`Except` error type, and the socket layer is an explicit receive-outcome value.
-/

/-- A byte buffer: models a Python `bytes`/`bytearray` as a list of byte values. -/
abbrev Buf := List Nat

/-- ASCII byte values of a string literal, used to write concrete buffers and
addresses the way the Python source writes string literals. -/
def ascii (s : String) : Buf := s.data.map Char.toNat

/-- Failure modes of the codec, each named after the Python exception it models.
`noNull` is the `ValueError` raised by `bytes.index` when no null byte is found
(the spec calls this case `MalformedPacket`); `nonAscii` is the
`UnicodeDecodeError`/`UnicodeEncodeError` from ASCII (de)coding; `shortData` is
the `struct.error` raised when fewer than 4 bytes remain for a scalar read (also
`MalformedPacket` in the spec); `packRange` is the `struct.error` raised when an
integer is outside the 32-bit signed range; `coerce` marks `float()`, `int()` or
`len()` applied to an argument whose type does not match its tag, a path outside
the builder's documented domain (the spec has the builder assume type-correct
argument/tag pairs). -/
inductive PErr where
  | noNull
  | nonAscii
  | shortData
  | packRange
  | coerce
  deriving DecidableEq

instance {ε α : Type} [DecidableEq ε] [DecidableEq α] : DecidableEq (Except ε α) := fun x y =>
  match x, y with
  | .error e, .error e' =>
    if h : e = e' then isTrue (congrArg Except.error h)
    else isFalse (fun hh => h (Except.error.inj hh))
  | .ok a, .ok a' =>
    if h : a = a' then isTrue (congrArg Except.ok h)
    else isFalse (fun hh => h (Except.ok.inj hh))
  | .error _, .ok _ => isFalse (fun hh => Except.noConfusion hh)
  | .ok _, .error _ => isFalse (fun hh => Except.noConfusion hh)

/-- An OSC argument value. Floats are represented by their IEEE-754 float32 bit
pattern: `struct.pack ">f"` / `struct.unpack ">f"` are mutually inverse bijections
between float32-representable Python floats and 32-bit patterns, so on the domain
the claims quantify over (float32-representable values) the bit pattern is a
faithful representation. -/
inductive OscArg where
  | f (bits : Nat)
  | i (v : Int)
  | s (str : Buf)
  deriving DecidableEq

/-- The `OscMsg` namedtuple: address and string arguments as ASCII byte lists,
type tags as tag-character byte values (`102`=f, `105`=i, `115`=s). -/
structure OscMsg where
  addr : Buf
  args : List OscArg
  types : List Nat
  deriving DecidableEq

/-- Index of the first null byte: models `data.index(b"\x00", pos)` applied to
`data[pos:]`, with `none` for the `ValueError` case. -/
def idx0 : Buf → Option Nat
  | [] => none
  | b :: rest => if b = 0 then some 0 else (idx0 rest).map (· + 1)

/-- All bytes are ASCII (below 128): the condition under which Python's
`str(_, "ascii")` / `bytes(_, "ascii")` succeed. -/
def isAscii (s : Buf) : Bool := s.all (fun b => decide (b < 128))

/-- No byte is null. -/
def noNulls (s : Buf) : Bool := s.all (fun b => b != 0)

/-- A byte list that survives the codec intact: ASCII and null-free. -/
def asciiNoNull (s : Buf) : Bool := noNulls s && isAscii s

/-- `read_string(data, pos)`: find the first null byte from `pos`, decode the
bytes before it as ASCII, and return the string together with `pos` advanced
past the 4-byte-aligned padded region (`(str_len // 4 + 1) * 4` bytes). -/
def read_string (data : Buf) (pos : Nat) : Except PErr (Buf × Nat) :=
  match idx0 (data.drop pos) with
  | none => .error .noNull
  | some str_len =>
    let s := (data.drop pos).take str_len
    if isAscii s then .ok (s, pos + (str_len / 4 + 1) * 4)
    else .error .nonAscii

/-- Python bytearray slice assignment `data[pos:posEnd] = repl` (for
`pos ≤ posEnd`): the clamped slice is replaced by `repl`, growing or shrinking
the buffer as needed — slice assignment on a `bytearray` never raises for
out-of-range positions. -/
def setSlice (data : Buf) (pos posEnd : Nat) (repl : Buf) : Buf :=
  data.take pos ++ repl ++ data.drop posEnd

/-- `pack_string(astr, data, pos)`: write the ASCII bytes of `astr` plus one null
terminator at `pos`, then null padding until the total written is a multiple of
4; return the updated buffer and the end position. Encoding fails on non-ASCII
characters; the slice assignments themselves never fail, growing the bytearray
when it is too short. -/
def pack_string (astr : Buf) (data : Buf) (pos : Nat) : Except PErr (Buf × Nat) :=
  if isAscii astr then
    let n := astr.length + 1
    let pos_end := pos + n
    let data1 := setSlice data pos pos_end (astr ++ [0])
    let pad_needed := n % 4
    if pad_needed ≠ 0 then
      let extra := 4 - pad_needed
      .ok (setSlice data1 pos_end (pos_end + extra) (List.replicate extra 0),
           pos_end + extra)
    else
      .ok (data1, pos_end)
  else .error .nonAscii

/-- Big-endian byte encoding of a 32-bit word, as laid down by `struct.pack`
with a 4-byte big-endian format. -/
def be4 (u : Nat) : Buf := [u / 16777216 % 256, u / 65536 % 256, u / 256 % 256, u % 256]

/-- `struct.unpack` of 4 big-endian bytes from `data[pos:pos+4]`: the 32-bit
word, or `struct.error` when fewer than 4 bytes remain (Python slicing clamps,
and `unpack` then rejects the short buffer). -/
def unpack_be4 (data : Buf) (pos : Nat) : Except PErr Nat :=
  match (data.drop pos).take 4 with
  | [b0, b1, b2, b3] => .ok (((b0 * 256 + b1) * 256 + b2) * 256 + b3)
  | _ => .error .shortData

/-- Reading a 32-bit word as a two's-complement signed integer (`">i"` unpack). -/
def toSigned (u : Nat) : Int :=
  if u < 2147483648 then (u : Int) else (u : Int) - 4294967296

/-- Two's-complement 32-bit word of an integer (`">i"` pack): `struct.error` for
values outside the 32-bit signed range. -/
def pack_int32 (v : Int) : Except PErr Nat :=
  if -2147483648 ≤ v ∧ v < 2147483648 then .ok ((v % 4294967296).toNat)
  else .error .packRange

/-- The argument loop of `parse_osc_packet`, one iteration per tag character:
`f` and `i` read 4 bytes and advance, `s` reads a padded string, a null tag is
skipped, and any other tag appends the diagnostic string
`"unknown type:" + t` as an argument without appending a type tag and without
advancing the position. Returns the arguments, the tags and the final position. -/
def parseArgs (data : Buf) : List Nat → Nat → Except PErr (List OscArg × List Nat × Nat)
  | [], dpos => .ok ([], [], dpos)
  | otype :: rest, dpos =>
    if otype = 102 then
      match unpack_be4 data dpos with
      | .error e => .error e
      | .ok u =>
        match parseArgs data rest (dpos + 4) with
        | .error e => .error e
        | .ok (args, types, p) => .ok (.f u :: args, 102 :: types, p)
    else if otype = 105 then
      match unpack_be4 data dpos with
      | .error e => .error e
      | .ok u =>
        match parseArgs data rest (dpos + 4) with
        | .error e => .error e
        | .ok (args, types, p) => .ok (.i (toSigned u) :: args, 105 :: types, p)
    else if otype = 115 then
      match read_string data dpos with
      | .error e => .error e
      | .ok (s, dpos2) =>
        match parseArgs data rest dpos2 with
        | .error e => .error e
        | .ok (args, types, p) => .ok (.s s :: args, 115 :: types, p)
    else if otype = 0 then
      parseArgs data rest dpos
    else
      match parseArgs data rest dpos with
      | .error e => .error e
      | .ok (args, types, p) =>
        .ok (.s (ascii "unknown type:" ++ [otype]) :: args, types, p)

/-- `parse_osc_packet(data, packet_size)`: read the address string at 0 and the
type-tag string after it, strip the tag string's first character (the comma),
then run the tag loop. `packet_size` is unused, exactly as in the source
(`pylint: disable=unused-variable`). -/
def parse_osc_packet (data : Buf) (packet_size : Nat) : Except PErr OscMsg :=
  match read_string data 0 with
  | .error e => .error e
  | .ok (oscaddr, dpos1) =>
    match read_string data dpos1 with
    | .error e => .error e
    | .ok (osctypes0, dpos2) =>
      match parseArgs data (osctypes0.drop 1) dpos2 with
      | .error e => .error e
      | .ok (args, types, _) => .ok ⟨oscaddr, args, types⟩

/-- Python `float(oarg)` followed by `struct.pack ">f"`, as a float32 bit
pattern. Exact for float arguments, which the model already carries as float32
bit patterns; coercion of int or string arguments (float32 rounding, string
parsing) lies outside the builder's documented domain — the spec has the builder
assume type-correct pairs — and is mapped to the `coerce` failure marker. -/
def pyFloatBits : OscArg → Except PErr Nat
  | .f bits => .ok bits
  | _ => .error .coerce

/-- Python `int(oarg)`: identity on int arguments; truncation of floats and
parsing of strings lie outside the builder's documented domain and are mapped to
the `coerce` failure marker. -/
def pyInt : OscArg → Except PErr Int
  | .i v => .ok v
  | _ => .error .coerce

/-- The argument loop of `create_osc_packet`, one iteration per
`zip(args, types)` pair: tag `f` writes 4 float bytes and advances by 4, tag `i`
writes 4 int bytes and advances by 4, tag `s` writes a padded string, and any
other tag writes nothing and leaves the position unchanged. -/
def packArgs : List (OscArg × Nat) → Buf → Nat → Except PErr (Buf × Nat)
  | [], data, pos => .ok (data, pos)
  | (oarg, otype) :: rest, data, pos =>
    if otype = 102 then
      match pyFloatBits oarg with
      | .error e => .error e
      | .ok bits => packArgs rest (setSlice data pos (pos + 4) (be4 bits)) (pos + 4)
    else if otype = 105 then
      match pyInt oarg with
      | .error e => .error e
      | .ok v =>
        match pack_int32 v with
        | .error e => .error e
        | .ok u => packArgs rest (setSlice data pos (pos + 4) (be4 u)) (pos + 4)
    else if otype = 115 then
      match oarg with
      | .s str =>
        match pack_string str data pos with
        | .error e => .error e
        | .ok (data2, pos2) => packArgs rest data2 pos2
      | _ => .error .coerce
    else
      packArgs rest data pos

/-- `create_osc_packet(msg, data)`: write the address, then the comma-prefixed
tag string, then (when there are arguments) the zipped argument/tag pairs;
returns the final buffer and the packet length. -/
def create_osc_packet (msg : OscMsg) (data : Buf) : Except PErr (Buf × Nat) :=
  match pack_string msg.addr data 0 with
  | .error e => .error e
  | .ok (data1, pos1) =>
    match pack_string (44 :: msg.types) data1 pos1 with
    | .error e => .error e
    | .ok (data2, pos2) =>
      if msg.args.length > 0 then
        packArgs (msg.args.zip msg.types) data2 pos2
      else
        .ok (data2, pos2)

/-- Python `msg.addr.startswith(addr)`: the second list is a leading segment of
the first. -/
def py_startswith (s pre : Buf) : Bool := List.isPrefixOf pre s

/-- `OSCServer._dispatch`: iterate the dispatch map in order and invoke every
handler whose registered address starts the message address. The model returns
the handlers invoked, in iteration order. -/
def dispatch_run {α : Type} : List (Buf × α) → OscMsg → List α
  | [], _ => []
  | (daddr, func) :: rest, msg =>
    if py_startswith msg.addr daddr then func :: dispatch_run rest msg
    else dispatch_run rest msg

/-- Outcome of one `recvfrom_into` call. In Python, `socket.timeout` and every
other transport-level failure (connection reset, network unreachable, ...) are
all subclasses of `OSError`; exceptions outside the `OSError` hierarchy (such as
the parser's `ValueError`) form the last constructor. -/
inductive RecvResult where
  | received (datasize : Nat) (buf : Buf)
  | timeoutErr
  | transportErr
  | otherExc
  deriving DecidableEq

/-- Result of one `poll()` call: returned silently, dispatched the listed
handlers, or let an exception escape to the caller. -/
inductive PollOutcome (α : Type) where
  | silent
  | dispatched (fired : List α)
  | raised
  deriving DecidableEq

/-- `OSCServer.poll`: receive, parse and dispatch inside `try`; the clause
`except OSError: pass` catches the timeout and every other transport failure
alike (both are `OSError` subclasses), while any exception outside `OSError`
(such as a parse error) propagates. -/
def poll {α : Type} (recv : RecvResult) (dispatch_map : List (Buf × α)) : PollOutcome α :=
  match recv with
  | .timeoutErr => .silent
  | .transportErr => .silent
  | .otherExc => .raised
  | .received datasize buf =>
    match parse_osc_packet buf datasize with
    | .error _ => .raised
    | .ok msg => .dispatched (dispatch_run dispatch_map msg)

/-- One argument/tag pair in the builder's documented domain: the tag matches
the argument's type, float bit patterns fit in 32 bits, integers fit the 32-bit
signed range, strings are ASCII and null-free. -/
def wfPair : OscArg × Nat → Bool
  | (.f bits, t) => t == 102 && decide (bits < 4294967296)
  | (.i v, t) => t == 105 && decide (-2147483648 ≤ v) && decide (v < 2147483648)
  | (.s s, t) => t == 115 && asciiNoNull s

/-- A message in the round-trip domain: ASCII null-free address, one tag per
argument, and each tag in `{f,i,s}` matching its argument. -/
def wfMsg (m : OscMsg) : Bool :=
  asciiNoNull m.addr && m.args.length == m.types.length
    && (m.args.zip m.types).all wfPair

/-- The bytes `pack_string` lays down for a string: the string, one null
terminator, and null padding to the next multiple of 4. -/
def strEnc (s : Buf) : Buf := s ++ 0 :: List.replicate (3 - s.length % 4) 0

/-- The bytes the builder lays down for one argument/tag pair of its documented
domain. -/
def pairEnc : OscArg × Nat → Buf
  | (.f bits, _) => be4 bits
  | (.i v, _) => be4 ((v % 4294967296).toNat)
  | (.s s, _) => strEnc s

/-- The payload bytes for a list of argument/tag pairs. -/
def pairsEnc (ps : List (OscArg × Nat)) : Buf := (ps.map pairEnc).flatten

/-- The full packet `create_osc_packet` lays down for a well-formed message. -/
def oscEnc (m : OscMsg) : Buf :=
  strEnc m.addr ++ strEnc (44 :: m.types) ++ pairsEnc (m.args.zip m.types)

/-- The effective tag characters the parser iterates over: the type-tag string
with its first character stripped (empty when either header read fails). -/
def effectiveTags (data : Buf) : Buf :=
  match read_string data 0 with
  | .error _ => []
  | .ok (_, p1) =>
    match read_string data p1 with
    | .error _ => []
    | .ok (ts, _) => ts.drop 1

/-- Tag characters the parser knows: `f`, `i`, `s` and the null padding byte. -/
def knownOrNullTag (t : Nat) : Bool := t == 102 || t == 105 || t == 115 || t == 0

/-- Tag byte `t` describes argument `a`. -/
def argMatchesTag : Nat → OscArg → Bool
  | 102, .f _ => true
  | 105, .i _ => true
  | 115, .s _ => true
  | _, _ => false

/-- The parsed-message invariant: one tag per argument, each tag describing its
argument. -/
def typesMatchArgs (m : OscMsg) : Bool :=
  m.args.length == m.types.length
    && (m.types.zip m.args).all (fun q => argMatchesTag q.1 q.2)

/-! ### Helper lemmas: null search and the string codec -/

lemma idx0_of_noNulls (s : Buf) (h : noNulls s = true) : idx0 s = none := by
  induction s with
  | nil => rfl
  | cons b bs ih =>
    simp only [noNulls, List.all_cons, Bool.and_eq_true] at h
    have hb : ¬ b = 0 := by simpa using h.1
    simp [idx0, hb, ih h.2]

lemma idx0_append (s rest : Buf) (h : noNulls s = true) :
    idx0 (s ++ 0 :: rest) = some s.length := by
  induction s with
  | nil => simp [idx0]
  | cons b bs ih =>
    simp only [noNulls, List.all_cons, Bool.and_eq_true] at h
    have hb : ¬ b = 0 := by simpa using h.1
    simp [idx0, hb, ih h.2]

lemma read_string_noNull (data : Buf) (pos : Nat) (h : noNulls (data.drop pos) = true) :
    read_string data pos = .error .noNull := by
  unfold read_string
  rw [idx0_of_noNulls _ h]

lemma read_string_ok (data s rest : Buf) (pos : Nat)
    (hd : data.drop pos = s ++ 0 :: rest)
    (hnz : noNulls s = true) (hA : isAscii s = true) :
    read_string data pos = .ok (s, pos + (s.length / 4 + 1) * 4) := by
  unfold read_string
  rw [hd, idx0_append s rest hnz]
  simp [List.take_left, hA]

lemma setSlice_take (data repl : Buf) (pos : Nat) (h : pos ≤ data.length) :
    (setSlice data pos (pos + repl.length) repl).take (pos + repl.length)
      = data.take pos ++ repl := by
  unfold setSlice
  have h1 : (data.take pos).length = pos := by
    rw [List.length_take]; omega
  have h2 : pos + repl.length = (data.take pos).length + repl.length := by rw [h1]
  rw [List.append_assoc, h2, List.take_append, List.take_left]

lemma setSlice_length (data repl : Buf) (pos : Nat) (h : pos ≤ data.length) :
    pos + repl.length ≤ (setSlice data pos (pos + repl.length) repl).length := by
  unfold setSlice
  simp only [List.length_append, List.length_take, List.length_drop]
  omega

lemma strEnc_length (s : Buf) : (strEnc s).length = (s.length / 4 + 1) * 4 := by
  simp only [strEnc, List.length_append, List.length_cons, List.length_replicate]
  omega

lemma pack_string_eq (s data : Buf) (pos : Nat) (hA : isAscii s = true) :
    pack_string s data pos =
      .ok (setSlice (setSlice data pos (pos + (s.length + 1)) (s ++ [0]))
             (pos + (s.length + 1)) (pos + (s.length + 1) + (3 - s.length % 4))
             (List.replicate (3 - s.length % 4) 0),
           pos + (s.length + 1) + (3 - s.length % 4)) := by
  by_cases h4 : (s.length + 1) % 4 = 0
  · have h0 : 3 - s.length % 4 = 0 := by omega
    simp [pack_string, hA, h4, h0, setSlice, List.take_append_drop]
  · have hextra : 4 - (s.length + 1) % 4 = 3 - s.length % 4 := by omega
    simp [pack_string, hA, h4, hextra]

lemma pack_string_ok (s data : Buf) (pos : Nat)
    (hA : isAscii s = true) (hp : pos ≤ data.length) :
    ∃ d', pack_string s data pos = .ok (d', pos + (strEnc s).length) ∧
      d'.take (pos + (strEnc s).length) = data.take pos ++ strEnc s ∧
      pos + (strEnc s).length ≤ d'.length := by
  have hs0 : (s ++ [0]).length = s.length + 1 := by simp
  have ht1 := setSlice_take data (s ++ [0]) pos hp
  have hl1 := setSlice_length data (s ++ [0]) pos hp
  rw [hs0] at ht1 hl1
  have hrep : (List.replicate (3 - s.length % 4) (0 : Nat)).length = 3 - s.length % 4 := by
    simp
  have ht2 := setSlice_take (setSlice data pos (pos + (s.length + 1)) (s ++ [0]))
    (List.replicate (3 - s.length % 4) 0) (pos + (s.length + 1)) hl1
  have hl2 := setSlice_length (setSlice data pos (pos + (s.length + 1)) (s ++ [0]))
    (List.replicate (3 - s.length % 4) 0) (pos + (s.length + 1)) hl1
  rw [hrep] at ht2 hl2
  have hlen : pos + (strEnc s).length = pos + (s.length + 1) + (3 - s.length % 4) := by
    simp only [strEnc, List.length_append, List.length_cons, List.length_replicate]
    omega
  refine ⟨setSlice (setSlice data pos (pos + (s.length + 1)) (s ++ [0]))
      (pos + (s.length + 1)) (pos + (s.length + 1) + (3 - s.length % 4))
      (List.replicate (3 - s.length % 4) 0), ?_, ?_, ?_⟩
  · rw [pack_string_eq s data pos hA, hlen]
  · rw [hlen, ht2, ht1]
    simp [strEnc, List.append_assoc]
  · rw [hlen]; exact hl2

/-! ### Helper lemmas: the scalar codec -/

lemma be4_length (u : Nat) : (be4 u).length = 4 := rfl

lemma unpack_be4_ok (data rest : Buf) (pos u : Nat) (hu : u < 4294967296)
    (hd : data.drop pos = be4 u ++ rest) :
    unpack_be4 data pos = .ok u := by
  unfold unpack_be4
  rw [hd]
  simp only [be4, List.cons_append, List.nil_append, List.take_succ_cons, List.take_zero]
  have : ((u / 16777216 % 256 * 256 + u / 65536 % 256) * 256 + u / 256 % 256) * 256 + u % 256
      = u := by omega
  rw [this]

lemma toSigned_int32 (v : Int) (h1 : -2147483648 ≤ v) (h2 : v < 2147483648) :
    toSigned ((v % 4294967296).toNat) = v := by
  unfold toSigned
  split_ifs with h
  · omega
  · omega

lemma pack_int32_ok (v : Int) (h1 : -2147483648 ≤ v) (h2 : v < 2147483648) :
    pack_int32 v = .ok ((v % 4294967296).toNat) := by
  simp [pack_int32, h1, h2]

lemma int32_toNat_lt (v : Int) : (v % 4294967296).toNat < 4294967296 := by omega

lemma drop_after (data pre x : Buf) (pos : Nat) (hd : data.drop pos = pre ++ x) :
    data.drop (pos + pre.length) = x := by
  rw [← List.drop_drop, hd, List.drop_left]

/-! ### Helper lemmas: equation forms of the two argument loops -/

lemma parseArgs_nil (data : Buf) (dpos : Nat) :
    parseArgs data [] dpos = .ok ([], [], dpos) := rfl

lemma parseArgs_f (data : Buf) (rest : List Nat) (dpos : Nat) :
    parseArgs data (102 :: rest) dpos =
      match unpack_be4 data dpos with
      | .error e => .error e
      | .ok u =>
        match parseArgs data rest (dpos + 4) with
        | .error e => .error e
        | .ok (args, types, p) => .ok (.f u :: args, 102 :: types, p) := by
  simp [parseArgs]

lemma parseArgs_i (data : Buf) (rest : List Nat) (dpos : Nat) :
    parseArgs data (105 :: rest) dpos =
      match unpack_be4 data dpos with
      | .error e => .error e
      | .ok u =>
        match parseArgs data rest (dpos + 4) with
        | .error e => .error e
        | .ok (args, types, p) => .ok (.i (toSigned u) :: args, 105 :: types, p) := by
  simp [parseArgs]

lemma parseArgs_s (data : Buf) (rest : List Nat) (dpos : Nat) :
    parseArgs data (115 :: rest) dpos =
      match read_string data dpos with
      | .error e => .error e
      | .ok (s, dpos2) =>
        match parseArgs data rest dpos2 with
        | .error e => .error e
        | .ok (args, types, p) => .ok (.s s :: args, 115 :: types, p) := by
  simp [parseArgs]

lemma parseArgs_null (data : Buf) (rest : List Nat) (dpos : Nat) :
    parseArgs data (0 :: rest) dpos = parseArgs data rest dpos := by
  simp [parseArgs]

lemma parseArgs_unknown (data : Buf) (t : Nat) (rest : List Nat) (dpos : Nat)
    (h102 : t ≠ 102) (h105 : t ≠ 105) (h115 : t ≠ 115) (h0 : t ≠ 0) :
    parseArgs data (t :: rest) dpos =
      match parseArgs data rest dpos with
      | .error e => .error e
      | .ok (args, types, p) =>
        .ok (.s (ascii "unknown type:" ++ [t]) :: args, types, p) := by
  simp [parseArgs, h102, h105, h115, h0]

lemma packArgs_nil (data : Buf) (pos : Nat) :
    packArgs [] data pos = .ok (data, pos) := rfl

lemma packArgs_f (bits : Nat) (rest : List (OscArg × Nat)) (data : Buf) (pos : Nat) :
    packArgs ((.f bits, 102) :: rest) data pos =
      packArgs rest (setSlice data pos (pos + 4) (be4 bits)) (pos + 4) := by
  simp [packArgs, pyFloatBits]

lemma packArgs_i (v : Int) (rest : List (OscArg × Nat)) (data : Buf) (pos : Nat)
    (h1 : -2147483648 ≤ v) (h2 : v < 2147483648) :
    packArgs ((.i v, 105) :: rest) data pos =
      packArgs rest (setSlice data pos (pos + 4) (be4 ((v % 4294967296).toNat))) (pos + 4) := by
  simp [packArgs, pyInt, pack_int32_ok v h1 h2]

lemma packArgs_s (s : Buf) (rest : List (OscArg × Nat)) (data : Buf) (pos : Nat) :
    packArgs ((.s s, 115) :: rest) data pos =
      match pack_string s data pos with
      | .error e => .error e
      | .ok (data2, pos2) => packArgs rest data2 pos2 := by
  simp [packArgs]

lemma packArgs_skip (a : OscArg) (t : Nat) (rest : List (OscArg × Nat)) (data : Buf) (pos : Nat)
    (h102 : t ≠ 102) (h105 : t ≠ 105) (h115 : t ≠ 115) :
    packArgs ((a, t) :: rest) data pos = packArgs rest data pos := by
  simp [packArgs, h102, h105, h115]

/-! ### Helper lemmas: well-formed messages -/

lemma pairsEnc_cons (p : OscArg × Nat) (ps : List (OscArg × Nat)) :
    pairsEnc (p :: ps) = pairEnc p ++ pairsEnc ps := by
  simp [pairsEnc]

lemma zip_all_types : ∀ (args : List OscArg) (types : List Nat),
    args.length = types.length → (args.zip types).all wfPair = true →
    types.all (fun t => t == 102 || t == 105 || t == 115) = true := by
  intro args
  induction args with
  | nil =>
    intro types h _
    cases types with
    | nil => rfl
    | cons t ts => simp at h
  | cons a as ih =>
    intro types h hall
    cases types with
    | nil => simp at h
    | cons t ts =>
      simp only [List.zip_cons_cons, List.all_cons, Bool.and_eq_true] at hall
      have h' : as.length = ts.length := by simpa using h
      have ht : (t == 102 || t == 105 || t == 115) = true := by
        cases a with
        | f bits =>
          simp only [wfPair, Bool.and_eq_true, beq_iff_eq] at hall
          simp [hall.1.1]
        | i v =>
          simp only [wfPair, Bool.and_eq_true, beq_iff_eq] at hall
          simp [hall.1.1.1]
        | s st =>
          simp only [wfPair, Bool.and_eq_true, beq_iff_eq] at hall
          simp [hall.1.1]
      simp only [List.all_cons, Bool.and_eq_true]
      exact ⟨ht, ih ts h' hall.2⟩

lemma types_noNulls (types : List Nat)
    (h : types.all (fun t => t == 102 || t == 105 || t == 115) = true) :
    noNulls (44 :: types) = true := by
  simp only [noNulls, List.all_eq_true, List.mem_cons]
  rintro t (rfl | htm)
  · decide
  · have := List.all_eq_true.mp h t htm
    simp only [Bool.or_eq_true, beq_iff_eq] at this
    simp only [bne_iff_ne, ne_eq]
    omega

lemma types_isAscii (types : List Nat)
    (h : types.all (fun t => t == 102 || t == 105 || t == 115) = true) :
    isAscii (44 :: types) = true := by
  simp only [isAscii, List.all_eq_true, List.mem_cons]
  rintro t (rfl | htm)
  · decide
  · have := List.all_eq_true.mp h t htm
    simp only [Bool.or_eq_true, beq_iff_eq] at this
    simp only [decide_eq_true_eq]
    omega

lemma asciiNoNull_split (s : Buf) (h : asciiNoNull s = true) :
    noNulls s = true ∧ isAscii s = true := by
  simpa [asciiNoNull, Bool.and_eq_true] using h

/-! ### The payload round trip -/

lemma parseArgs_ok : ∀ (ps : List (OscArg × Nat)) (data rest : Buf) (dpos : Nat),
    ps.all wfPair = true →
    data.drop dpos = pairsEnc ps ++ rest →
    parseArgs data (ps.map Prod.snd) dpos =
      .ok (ps.map Prod.fst, ps.map Prod.snd, dpos + (pairsEnc ps).length) := by
  intro ps
  induction ps with
  | nil =>
    intro data rest dpos _ _
    simp [parseArgs, pairsEnc]
  | cons p ps ih =>
    intro data rest dpos hwf hd
    obtain ⟨a, t⟩ := p
    rw [List.all_cons, Bool.and_eq_true] at hwf
    rw [pairsEnc_cons, List.append_assoc] at hd
    cases a with
    | f bits =>
      simp only [wfPair, Bool.and_eq_true, beq_iff_eq, decide_eq_true_eq] at hwf
      obtain ⟨⟨rfl, hbits⟩, hwf2⟩ := hwf
      have hdbe : data.drop dpos = be4 bits ++ (pairsEnc ps ++ rest) := by
        simpa [pairEnc] using hd
      have hub := unpack_be4_ok data (pairsEnc ps ++ rest) dpos bits hbits hdbe
      have hd4 : data.drop (dpos + 4) = pairsEnc ps ++ rest := by
        have := drop_after data (be4 bits) (pairsEnc ps ++ rest) dpos hdbe
        rwa [be4_length] at this
      have hrec := ih data rest (dpos + 4) hwf2 hd4
      simp only [List.map_cons, parseArgs_f, hub, hrec]
      have : dpos + 4 + (pairsEnc ps).length
          = dpos + (pairsEnc ((OscArg.f bits, 102) :: ps)).length := by
        rw [pairsEnc_cons]
        simp only [List.length_append, pairEnc, be4_length]
        omega
      rw [this]
    | i v =>
      simp only [wfPair, Bool.and_eq_true, beq_iff_eq, decide_eq_true_eq] at hwf
      obtain ⟨⟨⟨rfl, hv1⟩, hv2⟩, hwf2⟩ := hwf
      have hdbe : data.drop dpos = be4 ((v % 4294967296).toNat) ++ (pairsEnc ps ++ rest) := by
        simpa [pairEnc] using hd
      have hub := unpack_be4_ok data (pairsEnc ps ++ rest) dpos ((v % 4294967296).toNat)
        (int32_toNat_lt v) hdbe
      have hd4 : data.drop (dpos + 4) = pairsEnc ps ++ rest := by
        have := drop_after data (be4 ((v % 4294967296).toNat)) (pairsEnc ps ++ rest) dpos hdbe
        rwa [be4_length] at this
      have hrec := ih data rest (dpos + 4) hwf2 hd4
      simp only [List.map_cons, parseArgs_i, hub, hrec, toSigned_int32 v hv1 hv2]
      have : dpos + 4 + (pairsEnc ps).length
          = dpos + (pairsEnc ((OscArg.i v, 105) :: ps)).length := by
        rw [pairsEnc_cons]
        simp only [List.length_append, pairEnc, be4_length]
        omega
      rw [this]
    | s st =>
      simp only [wfPair, Bool.and_eq_true, beq_iff_eq] at hwf
      obtain ⟨⟨rfl, hst⟩, hwf2⟩ := hwf
      obtain ⟨hnz, hA⟩ := asciiNoNull_split st hst
      have hdse : data.drop dpos = st ++ 0 ::
          (List.replicate (3 - st.length % 4) 0 ++ (pairsEnc ps ++ rest)) := by
        simpa [pairEnc, strEnc, List.append_assoc] using hd
      have hrs := read_string_ok data st
        (List.replicate (3 - st.length % 4) 0 ++ (pairsEnc ps ++ rest)) dpos hdse hnz hA
      have hpos2 : dpos + (st.length / 4 + 1) * 4 = dpos + (strEnc st).length := by
        rw [strEnc_length]
      have hdnext : data.drop (dpos + (strEnc st).length) = pairsEnc ps ++ rest := by
        have hd' : data.drop dpos = strEnc st ++ (pairsEnc ps ++ rest) := by
          simpa [pairEnc] using hd
        exact drop_after data (strEnc st) (pairsEnc ps ++ rest) dpos hd'
      have hrec := ih data rest (dpos + (strEnc st).length) hwf2 hdnext
      simp only [List.map_cons, parseArgs_s, hrs, hpos2, hrec]
      have : dpos + (strEnc st).length + (pairsEnc ps).length
          = dpos + (pairsEnc ((OscArg.s st, 115) :: ps)).length := by
        rw [pairsEnc_cons]
        simp only [List.length_append, pairEnc]
        omega
      rw [this]

lemma packArgs_ok : ∀ (ps : List (OscArg × Nat)) (data : Buf) (pos : Nat),
    ps.all wfPair = true → pos ≤ data.length →
    ∃ d', packArgs ps data pos = .ok (d', pos + (pairsEnc ps).length) ∧
      d'.take (pos + (pairsEnc ps).length) = data.take pos ++ pairsEnc ps ∧
      pos + (pairsEnc ps).length ≤ d'.length := by
  intro ps
  induction ps with
  | nil =>
    intro data pos _ hp
    refine ⟨data, ?_, ?_, ?_⟩
    · simp [packArgs, pairsEnc]
    · simp [pairsEnc]
    · simpa [pairsEnc] using hp
  | cons p ps ih =>
    intro data pos hwf hp
    obtain ⟨a, t⟩ := p
    rw [List.all_cons, Bool.and_eq_true] at hwf
    cases a with
    | f bits =>
      simp only [wfPair, Bool.and_eq_true, beq_iff_eq, decide_eq_true_eq] at hwf
      obtain ⟨⟨rfl, _⟩, hwf2⟩ := hwf
      have ht1 := setSlice_take data (be4 bits) pos hp
      have hl1 := setSlice_length data (be4 bits) pos hp
      rw [be4_length] at ht1 hl1
      obtain ⟨d', hpk, htk, hln⟩ :=
        ih (setSlice data pos (pos + 4) (be4 bits)) (pos + 4) hwf2 hl1
      refine ⟨d', ?_, ?_, ?_⟩
      · rw [packArgs_f, hpk]
        have : pos + 4 + (pairsEnc ps).length
            = pos + (pairsEnc ((OscArg.f bits, 102) :: ps)).length := by
          rw [pairsEnc_cons]
          simp only [List.length_append, pairEnc, be4_length]
          omega
        rw [this]
      · have : pos + (pairsEnc ((OscArg.f bits, 102) :: ps)).length
            = pos + 4 + (pairsEnc ps).length := by
          rw [pairsEnc_cons]
          simp only [List.length_append, pairEnc, be4_length]
          omega
        rw [this, htk, ht1, pairsEnc_cons]
        simp [pairEnc, List.append_assoc]
      · have : pos + (pairsEnc ((OscArg.f bits, 102) :: ps)).length
            = pos + 4 + (pairsEnc ps).length := by
          rw [pairsEnc_cons]
          simp only [List.length_append, pairEnc, be4_length]
          omega
        rw [this]; exact hln
    | i v =>
      simp only [wfPair, Bool.and_eq_true, beq_iff_eq, decide_eq_true_eq] at hwf
      obtain ⟨⟨⟨rfl, hv1⟩, hv2⟩, hwf2⟩ := hwf
      have ht1 := setSlice_take data (be4 ((v % 4294967296).toNat)) pos hp
      have hl1 := setSlice_length data (be4 ((v % 4294967296).toNat)) pos hp
      rw [be4_length] at ht1 hl1
      obtain ⟨d', hpk, htk, hln⟩ :=
        ih (setSlice data pos (pos + 4) (be4 ((v % 4294967296).toNat))) (pos + 4) hwf2 hl1
      have hlen : pos + (pairsEnc ((OscArg.i v, 105) :: ps)).length
          = pos + 4 + (pairsEnc ps).length := by
        rw [pairsEnc_cons]
        simp only [List.length_append, pairEnc, be4_length]
        omega
      refine ⟨d', ?_, ?_, ?_⟩
      · rw [packArgs_i v ps data pos hv1 hv2, hpk, hlen]
      · rw [hlen, htk, ht1, pairsEnc_cons]
        simp [pairEnc, List.append_assoc]
      · rw [hlen]; exact hln
    | s st =>
      simp only [wfPair, Bool.and_eq_true, beq_iff_eq] at hwf
      obtain ⟨⟨rfl, hst⟩, hwf2⟩ := hwf
      obtain ⟨_, hA⟩ := asciiNoNull_split st hst
      obtain ⟨d1, hps, ht1, hl1⟩ := pack_string_ok st data pos hA hp
      obtain ⟨d', hpk, htk, hln⟩ := ih d1 (pos + (strEnc st).length) hwf2 hl1
      have hlen : pos + (pairsEnc ((OscArg.s st, 115) :: ps)).length
          = pos + (strEnc st).length + (pairsEnc ps).length := by
        rw [pairsEnc_cons]
        simp only [List.length_append, pairEnc]
        omega
      refine ⟨d', ?_, ?_, ?_⟩
      · rw [packArgs_s, hps]
        simp only [hpk, hlen]
      · rw [hlen, htk, ht1, pairsEnc_cons]
        simp [pairEnc, List.append_assoc]
      · rw [hlen]; exact hln

lemma wfMsg_split (m : OscMsg) (h : wfMsg m = true) :
    asciiNoNull m.addr = true ∧ m.args.length = m.types.length ∧
      (m.args.zip m.types).all wfPair = true := by
  simp only [wfMsg, Bool.and_eq_true, beq_iff_eq] at h
  exact ⟨h.1.1, h.1.2, h.2⟩

lemma create_ok (msg : OscMsg) (data : Buf) (h : wfMsg msg = true) :
    ∃ d', create_osc_packet msg data = .ok (d', (oscEnc msg).length) ∧
      d'.take (oscEnc msg).length = oscEnc msg ∧ (oscEnc msg).length ≤ d'.length := by
  obtain ⟨haddr, hleneq, hzip⟩ := wfMsg_split msg h
  obtain ⟨hnz, hA⟩ := asciiNoNull_split _ haddr
  have htys := zip_all_types msg.args msg.types hleneq hzip
  have htA := types_isAscii msg.types htys
  obtain ⟨d1, hp1, ht1, hl1⟩ := pack_string_ok msg.addr data 0 hA (Nat.zero_le _)
  simp only [Nat.zero_add, List.take_zero, List.nil_append] at hp1 ht1 hl1
  obtain ⟨d2, hp2, ht2, hl2⟩ :=
    pack_string_ok (44 :: msg.types) d1 (strEnc msg.addr).length htA hl1
  rw [ht1] at ht2
  have hosc : oscEnc msg =
      strEnc msg.addr ++ strEnc (44 :: msg.types) ++ pairsEnc (msg.args.zip msg.types) := rfl
  by_cases hargs : msg.args.length > 0
  · obtain ⟨d3, hp3, ht3, hl3⟩ := packArgs_ok (msg.args.zip msg.types) d2
      ((strEnc msg.addr).length + (strEnc (44 :: msg.types)).length) hzip hl2
    rw [ht2] at ht3
    have hlen3 : (oscEnc msg).length =
        (strEnc msg.addr).length + (strEnc (44 :: msg.types)).length
          + (pairsEnc (msg.args.zip msg.types)).length := by
      rw [hosc]; simp only [List.length_append]
    refine ⟨d3, ?_, ?_, ?_⟩
    · simp only [create_osc_packet, hp1, hp2, hargs, if_true, hp3, hlen3]
    · rw [hlen3, ht3, hosc]
    · rw [hlen3]; exact hl3
  · have hargs0 : msg.args = [] := by
      cases hq : msg.args with
      | nil => rfl
      | cons x xs => rw [hq] at hargs; simp at hargs
    have hzipnil : msg.args.zip msg.types = [] := by rw [hargs0]; rfl
    have hlen2 : (oscEnc msg).length =
        (strEnc msg.addr).length + (strEnc (44 :: msg.types)).length := by
      rw [hosc, hzipnil]; simp [pairsEnc]
    refine ⟨d2, ?_, ?_, ?_⟩
    · simp only [create_osc_packet, hp1, hp2, hargs, if_false, hlen2]
    · rw [hlen2, ht2, hosc, hzipnil]
      simp [pairsEnc]
    · rw [hlen2]; exact hl2

lemma parse_enc (msg : OscMsg) (h : wfMsg msg = true) (sz : Nat) :
    parse_osc_packet (oscEnc msg) sz = .ok msg := by
  obtain ⟨haddr, hleneq, hzip⟩ := wfMsg_split msg h
  obtain ⟨hnz, hA⟩ := asciiNoNull_split _ haddr
  have htys := zip_all_types msg.args msg.types hleneq hzip
  have htA := types_isAscii msg.types htys
  have htnz := types_noNulls msg.types htys
  have hd0 : (oscEnc msg).drop 0 = msg.addr ++ 0 ::
      (List.replicate (3 - msg.addr.length % 4) 0
        ++ (strEnc (44 :: msg.types) ++ pairsEnc (msg.args.zip msg.types))) := by
    simp [oscEnc, strEnc, List.append_assoc]
  have hr1 := read_string_ok (oscEnc msg) msg.addr _ 0 hd0 hnz hA
  have hL1 : 0 + (msg.addr.length / 4 + 1) * 4 = (strEnc msg.addr).length := by
    rw [strEnc_length]; omega
  have hd1 : (oscEnc msg).drop (strEnc msg.addr).length
      = (44 :: msg.types) ++ 0 ::
        (List.replicate (3 - (44 :: msg.types).length % 4) 0
          ++ pairsEnc (msg.args.zip msg.types)) := by
    have hsp : oscEnc msg = strEnc msg.addr
        ++ (strEnc (44 :: msg.types) ++ pairsEnc (msg.args.zip msg.types)) := by
      simp [oscEnc, List.append_assoc]
    rw [hsp, List.drop_left]
    simp [strEnc, List.append_assoc]
  have hr2 := read_string_ok (oscEnc msg) (44 :: msg.types) _
    (strEnc msg.addr).length hd1 htnz htA
  have hL2 : (strEnc msg.addr).length + ((44 :: msg.types).length / 4 + 1) * 4
      = (strEnc msg.addr).length + (strEnc (44 :: msg.types)).length := by
    simp [strEnc_length]
  have hd2 : (oscEnc msg).drop ((strEnc msg.addr).length + (strEnc (44 :: msg.types)).length)
      = pairsEnc (msg.args.zip msg.types) ++ [] := by
    have h1 : oscEnc msg = (strEnc msg.addr ++ strEnc (44 :: msg.types))
        ++ pairsEnc (msg.args.zip msg.types) := by
      simp [oscEnc, List.append_assoc]
    have h2 : (strEnc msg.addr ++ strEnc (44 :: msg.types)).length
        = (strEnc msg.addr).length + (strEnc (44 :: msg.types)).length := by simp
    rw [h1, ← h2, List.drop_left, List.append_nil]
  have hmapsnd : (msg.args.zip msg.types).map Prod.snd = msg.types :=
    List.map_snd_zip msg.args msg.types (le_of_eq hleneq.symm)
  have hmapfst : (msg.args.zip msg.types).map Prod.fst = msg.args :=
    List.map_fst_zip msg.args msg.types (le_of_eq hleneq)
  have hpa := parseArgs_ok (msg.args.zip msg.types) (oscEnc msg) []
    ((strEnc msg.addr).length + (strEnc (44 :: msg.types)).length) hzip hd2
  rw [hmapsnd, hmapfst] at hpa
  unfold parse_osc_packet
  simp only [hr1, hL1, hr2, hL2, List.drop_succ_cons, List.drop_zero, hpa]

/-! ### Helper lemmas: malformed input, parsed-message shape, zip truncation -/

lemma parse_noNull (data : Buf) (sz : Nat) (h : noNulls data = true) :
    parse_osc_packet data sz = .error .noNull := by
  unfold parse_osc_packet
  rw [read_string_noNull data 0 (by simpa using h)]

lemma parseArgs_match : ∀ (tags : List Nat) (data : Buf) (dpos : Nat)
    (args : List OscArg) (types : List Nat) (p : Nat),
    tags.all knownOrNullTag = true →
    parseArgs data tags dpos = .ok (args, types, p) →
    args.length = types.length ∧
      (types.zip args).all (fun q => argMatchesTag q.1 q.2) = true := by
  intro tags
  induction tags with
  | nil =>
    intro data dpos args types p _ hok
    rw [parseArgs_nil] at hok
    simp only [Except.ok.injEq, Prod.mk.injEq] at hok
    obtain ⟨h1, h2, _⟩ := hok
    subst h1; subst h2
    exact ⟨rfl, rfl⟩
  | cons t ts ih =>
    intro data dpos args types p hall hok
    rw [List.all_cons, Bool.and_eq_true] at hall
    have ht := hall.1
    simp only [knownOrNullTag, Bool.or_eq_true, beq_iff_eq] at ht
    rcases ht with ((rfl | rfl) | rfl) | rfl
    · rw [parseArgs_f] at hok
      cases hu : unpack_be4 data dpos with
      | error e => rw [hu] at hok; simp at hok
      | ok u =>
        simp only [hu] at hok
        cases hr : parseArgs data ts (dpos + 4) with
        | error e => rw [hr] at hok; simp at hok
        | ok triple =>
          obtain ⟨args', types', p'⟩ := triple
          simp only [hr, Except.ok.injEq, Prod.mk.injEq] at hok
          obtain ⟨h1, h2, _⟩ := hok
          subst h1; subst h2
          obtain ⟨ihl, iha⟩ := ih data (dpos + 4) args' types' p' hall.2 hr
          refine ⟨by simp [ihl], ?_⟩
          simp only [List.zip_cons_cons, List.all_cons, Bool.and_eq_true]
          exact ⟨rfl, iha⟩
    · rw [parseArgs_i] at hok
      cases hu : unpack_be4 data dpos with
      | error e => rw [hu] at hok; simp at hok
      | ok u =>
        simp only [hu] at hok
        cases hr : parseArgs data ts (dpos + 4) with
        | error e => rw [hr] at hok; simp at hok
        | ok triple =>
          obtain ⟨args', types', p'⟩ := triple
          simp only [hr, Except.ok.injEq, Prod.mk.injEq] at hok
          obtain ⟨h1, h2, _⟩ := hok
          subst h1; subst h2
          obtain ⟨ihl, iha⟩ := ih data (dpos + 4) args' types' p' hall.2 hr
          refine ⟨by simp [ihl], ?_⟩
          simp only [List.zip_cons_cons, List.all_cons, Bool.and_eq_true]
          exact ⟨rfl, iha⟩
    · rw [parseArgs_s] at hok
      cases hs : read_string data dpos with
      | error e => rw [hs] at hok; simp at hok
      | ok pr =>
        obtain ⟨st, dpos2⟩ := pr
        simp only [hs] at hok
        cases hr : parseArgs data ts dpos2 with
        | error e => rw [hr] at hok; simp at hok
        | ok triple =>
          obtain ⟨args', types', p'⟩ := triple
          simp only [hr, Except.ok.injEq, Prod.mk.injEq] at hok
          obtain ⟨h1, h2, _⟩ := hok
          subst h1; subst h2
          obtain ⟨ihl, iha⟩ := ih data dpos2 args' types' p' hall.2 hr
          refine ⟨by simp [ihl], ?_⟩
          simp only [List.zip_cons_cons, List.all_cons, Bool.and_eq_true]
          exact ⟨rfl, iha⟩
    · rw [parseArgs_null] at hok
      exact ih data dpos args types p hall.2 hok

lemma zip_take_len {α β : Type} : ∀ (l1 : List α) (l2 : List β),
    l1.zip l2 = (l1.take l2.length).zip l2 := by
  intro l1
  induction l1 with
  | nil => intro l2; simp
  | cons x xs ih =>
    intro l2
    cases l2 with
    | nil => simp
    | cons y ys => simp [List.zip_cons_cons, ih ys]

lemma create_take_args (msg : OscMsg) (data : Buf) :
    create_osc_packet msg data =
      create_osc_packet ⟨msg.addr, msg.args.take msg.types.length, msg.types⟩ data := by
  unfold create_osc_packet
  cases h1 : pack_string msg.addr data 0 with
  | error e => rfl
  | ok pr1 =>
    obtain ⟨d1, p1⟩ := pr1
    dsimp only
    cases h2 : pack_string (44 :: msg.types) d1 p1 with
    | error e => rfl
    | ok pr2 =>
      obtain ⟨d2, p2⟩ := pr2
      dsimp only
      by_cases ha : msg.args.length > 0
      · by_cases htn : msg.types.length > 0
        · have hg : (msg.args.take msg.types.length).length > 0 := by
            simp only [List.length_take]
            omega
          simp only [ha, htn, hg, if_true, ← zip_take_len]
        · have ht0 : msg.types = [] := by
            cases hq : msg.types with
            | nil => rfl
            | cons x xs => rw [hq] at htn; simp at htn
          rw [ht0]
          simp [List.zip_nil_right, packArgs_nil, ha]
      · have ha0 : msg.args = [] := by
          cases hq : msg.args with
          | nil => rfl
          | cons x xs => rw [hq] at ha; simp at ha
        rw [ha0]
        simp

/-! ### Claim theorems -/

/-- A concrete well-formed message used by several witnesses. -/
def m0 : OscMsg :=
  ⟨ascii "/1/faderA", [.f 1056964608, .i 42, .s (ascii "hi")], [102, 105, 115]⟩

/-- C1: for every Message whose type tags are all in {f,i,s}, whose string
arguments and address are ASCII and null-free, whose integer arguments are in
32-bit signed range and whose float arguments are float32-representable (all
captured by `wfMsg`), building succeeds and `parse_osc_packet` applied to the
bytes written by `create_osc_packet`, with the returned length, yields the
message back. -/
theorem C1_roundtrip (msg : OscMsg) (data : Buf) (h : wfMsg msg = true) :
    ∃ out, create_osc_packet msg data = .ok out ∧
      parse_osc_packet (out.1.take out.2) out.2 = .ok msg := by
  obtain ⟨d', hc, htake, _⟩ := create_ok msg data h
  exact ⟨(d', (oscEnc msg).length), hc, by rw [htake]; exact parse_enc msg h _⟩

/-- Witness for C1 at a concrete three-argument message and a 128-byte buffer. -/
theorem C1_roundtrip_witness :
    wfMsg m0 = true ∧
    ∃ out, create_osc_packet m0 (List.replicate 128 0) = .ok out ∧
      parse_osc_packet (out.1.take out.2) out.2 = .ok m0 :=
  ⟨rfl, C1_roundtrip m0 (List.replicate 128 0) rfl⟩

/-- C2 counterexample: a write of padded length 4 into a buffer of capacity 2
(pos 0, so pos + padded length exceeds capacity) does not fail with any
buffer-too-small error: bytearray slice assignment grows the buffer to 4 bytes
and `pack_string` succeeds. No `BufferTooSmall` code path exists in the source. -/
theorem C2_counterexample :
    pack_string (ascii "abc") [0, 0] 0 = .ok ([97, 98, 99, 0], 4) ∧
    ([97, 98, 99, 0] : Buf).length > ([0, 0] : Buf).length :=
  ⟨rfl, by decide⟩

/-- C2 amended: a string write whose `pos + padded_length` exceeds the
destination capacity does not fail; the bytearray grows as needed, `pack_string`
succeeds for every ASCII string and in-range start position (with the final
position within the grown buffer), and `create_osc_packet` succeeds for every
well-formed message regardless of the buffer's construction capacity. -/
theorem C2_buffer_grows (s data : Buf) (pos : Nat) (msg : OscMsg) (data2 : Buf)
    (hA : isAscii s = true) (hp : pos ≤ data.length) (hm : wfMsg msg = true) :
    (∃ d' p', pack_string s data pos = .ok (d', p') ∧
      p' = pos + (strEnc s).length ∧ p' ≤ d'.length) ∧
    (∃ out, create_osc_packet msg data2 = .ok out) := by
  obtain ⟨d', h1, _, h3⟩ := pack_string_ok s data pos hA hp
  obtain ⟨e', h4, _, _⟩ := create_ok msg data2 hm
  exact ⟨⟨d', pos + (strEnc s).length, h1, rfl, h3⟩, ⟨_, h4⟩⟩

/-- Witness for the amended C2: capacity 2, padded length 4. -/
theorem C2_buffer_grows_witness :
    (isAscii (ascii "abc") = true ∧ (0 : Nat) ≤ ([0, 0] : Buf).length ∧
      wfMsg m0 = true) ∧
    ((∃ d' p', pack_string (ascii "abc") [0, 0] 0 = .ok (d', p') ∧
        p' = 0 + (strEnc (ascii "abc")).length ∧ p' ≤ d'.length) ∧
      (∃ out, create_osc_packet m0 [] = .ok out)) :=
  ⟨⟨rfl, by decide, rfl⟩, C2_buffer_grows (ascii "abc") [0, 0] 0 m0 [] rfl (by decide) rfl⟩

/-- C3: for every buffer and every position such that no null byte occurs from
that position to the end of the buffer, `read_string` fails with the no-null
error (Python's `ValueError` from `bytes.index`, the spec's `MalformedPacket`);
consequently, for every truncated packet whose address string has no null
terminator (no null byte anywhere, since the address is read from position 0),
`parse_osc_packet` fails the same way instead of reading out of bounds or
returning a Message. The two conjuncts quantify over independent buffers. -/
theorem C3_missing_null (data : Buf) (pos : Nat) (data2 : Buf) (sz : Nat)
    (h : noNulls (data.drop pos) = true) (h2 : noNulls data2 = true) :
    read_string data pos = .error .noNull ∧
    parse_osc_packet data2 sz = .error .noNull :=
  ⟨read_string_noNull data pos h, parse_noNull data2 sz h2⟩

/-- Witness for C3: a terminated address followed by an unterminated tag string,
read at position 4, and a truncated two-byte packet "/a" with no terminator. -/
theorem C3_missing_null_witness :
    (noNulls (([47, 97, 0, 0, 44, 120] : Buf).drop 4) = true ∧
      noNulls (ascii "/a") = true) ∧
    (read_string [47, 97, 0, 0, 44, 120] 4 = .error .noNull ∧
      parse_osc_packet (ascii "/a") 2 = .error .noNull) :=
  ⟨⟨rfl, rfl⟩, C3_missing_null [47, 97, 0, 0, 44, 120] 4 (ascii "/a") 2 rfl rfl⟩

/-- C4 counterexample: on the packet "/a" with tag string ",x" the parser
succeeds and returns one argument (the diagnostic string) but zero type tags,
so a Message returned by `parse_osc_packet` can violate
`len(arguments) == len(type_tags)`. -/
theorem C4_counterexample :
    parse_osc_packet [47, 97, 0, 0, 44, 120, 0, 0] 8 =
      .ok ⟨[47, 97], [.s (ascii "unknown type:" ++ [120])], []⟩ ∧
    ¬ ([OscArg.s (ascii "unknown type:" ++ [120])].length = ([] : List Nat).length) :=
  ⟨rfl, by decide⟩

/-- C4 amended: whenever `parse_osc_packet` succeeds on a buffer whose effective
tag characters all lie in {f,i,s,null} — that is, in the absence of the
unknown-tag fallback, which appends an argument without a tag — the returned
message has equally long argument and tag lists, and the tag at each index
describes the argument at the same index. -/
theorem C4_parsed_invariant (data : Buf) (sz : Nat) (m : OscMsg)
    (hok : parse_osc_packet data sz = .ok m)
    (hknown : (effectiveTags data).all knownOrNullTag = true) :
    typesMatchArgs m = true := by
  unfold parse_osc_packet at hok
  unfold effectiveTags at hknown
  cases h1 : read_string data 0 with
  | error e => simp [h1] at hok
  | ok pr1 =>
    obtain ⟨oscaddr, dpos1⟩ := pr1
    simp only [h1] at hok hknown
    cases h2 : read_string data dpos1 with
    | error e => simp [h2] at hok
    | ok pr2 =>
      obtain ⟨osctypes0, dpos2⟩ := pr2
      simp only [h2] at hok hknown
      cases h3 : parseArgs data (osctypes0.drop 1) dpos2 with
      | error e =>
        simp only [h3] at hok
        exact Except.noConfusion hok
      | ok triple =>
        obtain ⟨args, types, p⟩ := triple
        simp only [h3, Except.ok.injEq] at hok
        obtain ⟨hlen, hmatch⟩ :=
          parseArgs_match (osctypes0.drop 1) data dpos2 args types p hknown h3
        subst hok
        simp only [typesMatchArgs, Bool.and_eq_true, beq_iff_eq]
        exact ⟨hlen, hmatch⟩

/-- Witness for the amended C4 at a parsed ",if" packet. -/
theorem C4_parsed_invariant_witness :
    (parse_osc_packet [47, 97, 0, 0, 44, 105, 102, 0, 0, 0, 0, 42, 63, 128, 0, 0] 16 =
        .ok ⟨[47, 97], [.i 42, .f 1065353216], [105, 102]⟩ ∧
      (effectiveTags [47, 97, 0, 0, 44, 105, 102, 0, 0, 0, 0, 42, 63, 128, 0, 0]).all
        knownOrNullTag = true) ∧
    typesMatchArgs ⟨[47, 97], [.i 42, .f 1065353216], [105, 102]⟩ = true :=
  ⟨⟨rfl, rfl⟩,
    C4_parsed_invariant [47, 97, 0, 0, 44, 105, 102, 0, 0, 0, 0, 42, 63, 128, 0, 0] 16
      ⟨[47, 97], [.i 42, .f 1065353216], [105, 102]⟩ rfl rfl⟩

/-- C5: during parsing, a tag character outside {f,i,s,null} appends the string
"unknown type:" followed by that character to the arguments, appends nothing to
the type tags, leaves the payload position `dpos` unchanged, and parsing
continues over the remaining tags; a null tag character is skipped entirely,
producing no argument and leaving the position unchanged. -/
theorem C5_unknown_tag (t : Nat) (rest : List Nat) (data : Buf) (dpos : Nat)
    (h102 : t ≠ 102) (h105 : t ≠ 105) (h115 : t ≠ 115) (h0 : t ≠ 0) :
    parseArgs data (t :: rest) dpos =
      (match parseArgs data rest dpos with
       | .error e => .error e
       | .ok (args, types, p) =>
         .ok (.s (ascii "unknown type:" ++ [t]) :: args, types, p)) ∧
    parseArgs data (0 :: rest) dpos = parseArgs data rest dpos :=
  ⟨parseArgs_unknown data t rest dpos h102 h105 h115 h0, parseArgs_null data rest dpos⟩

/-- Witness for C5 at the unknown tag character 'x' (120). -/
theorem C5_unknown_tag_witness :
    ((120 : Nat) ≠ 102 ∧ (120 : Nat) ≠ 105 ∧ (120 : Nat) ≠ 115 ∧ (120 : Nat) ≠ 0) ∧
    (parseArgs [] [120, 105] 0 =
      (match parseArgs [] [105] 0 with
       | .error e => .error e
       | .ok (args, types, p) =>
         .ok (.s (ascii "unknown type:" ++ [120]) :: args, types, p)) ∧
     parseArgs [] [0, 105] 0 = parseArgs [] [105] 0) :=
  ⟨⟨by decide, by decide, by decide, by decide⟩,
    C5_unknown_tag 120 [105] [] 0 (by decide) (by decide) (by decide) (by decide)⟩

/-- C6: `_dispatch` invokes the handlers of exactly those table entries whose
registered address is a string prefix of the message address, in table order,
with no short-circuit after the first match, and invokes nothing (raising no
error) when no entry matches; concretely the table [("/1/", 1), ("/", 2)] fires
both handlers on "/1/faderA" and the table [("/2/", 1)] fires none. -/
theorem C6_dispatch {α : Type} (table : List (Buf × α)) (msg : OscMsg) :
    dispatch_run table msg
      = (table.filter (fun q => py_startswith msg.addr q.1)).map Prod.snd ∧
    dispatch_run [(ascii "/1/", 1), (ascii "/", 2)] ⟨ascii "/1/faderA", [], []⟩ = [1, 2] ∧
    dispatch_run [(ascii "/2/", 1)] ⟨ascii "/1/faderA", [], []⟩ = [] := by
  refine ⟨?_, rfl, rfl⟩
  induction table with
  | nil => rfl
  | cons q rest ih =>
    obtain ⟨qa, qf⟩ := q
    by_cases hm : py_startswith msg.addr qa = true
    · simp [dispatch_run, hm, ih, List.filter_cons]
    · simp [dispatch_run, hm, ih, List.filter_cons]

/-- C7: every string written by `pack_string` occupies a number of bytes that is
a multiple of 4 and at least the string length plus one; a string whose length
is an exact multiple of 4 occupies exactly length + 4 bytes — one null
terminator and three pad bytes, never zero padding. -/
theorem C7_padding (s data d' : Buf) (pos p' : Nat)
    (hok : pack_string s data pos = .ok (d', p')) :
    (p' - pos) % 4 = 0 ∧ s.length + 1 ≤ p' - pos ∧
      (s.length % 4 = 0 → p' - pos = s.length + 4) := by
  by_cases hA : isAscii s = true
  · rw [pack_string_eq s data pos hA] at hok
    simp only [Except.ok.injEq, Prod.mk.injEq] at hok
    obtain ⟨_, hp⟩ := hok
    subst hp
    refine ⟨by omega, by omega, by omega⟩
  · simp [pack_string, hA] at hok

/-- Witness for C7 at the length-4 string "abcd": 8 wire bytes. -/
theorem C7_padding_witness :
    pack_string (ascii "abcd") [] 0 = .ok ([97, 98, 99, 100, 0, 0, 0, 0], 8) ∧
    ((8 - 0) % 4 = 0 ∧ (ascii "abcd").length + 1 ≤ 8 - 0 ∧
      ((ascii "abcd").length % 4 = 0 → 8 - 0 = (ascii "abcd").length + 4)) :=
  ⟨rfl, C7_padding (ascii "abcd") [] [97, 98, 99, 100, 0, 0, 0, 0] 0 8 rfl⟩

/-- C8: the builder walks argument/tag pairs in order: an f tag writes the four
big-endian float bytes and advances by 4; an i tag writes the four big-endian
two's-complement bytes of the (in-range) integer and advances by 4; an s tag
writes a padded string; a pair whose tag is outside {f,i,s} writes nothing and
leaves the position unchanged; and arguments with no pairing tag are dropped by
the zip, so the built packet equals the one for the argument list truncated to
the tag count. -/
theorem C8_builder (bits : Nat) (v : Int) (s : Buf) (a : OscArg) (t : Nat)
    (rest : List (OscArg × Nat)) (data : Buf) (pos : Nat) (msg : OscMsg)
    (hv1 : -2147483648 ≤ v) (hv2 : v < 2147483648)
    (h102 : t ≠ 102) (h105 : t ≠ 105) (h115 : t ≠ 115) :
    packArgs ((.f bits, 102) :: rest) data pos
      = packArgs rest (setSlice data pos (pos + 4) (be4 bits)) (pos + 4) ∧
    packArgs ((.i v, 105) :: rest) data pos
      = packArgs rest (setSlice data pos (pos + 4) (be4 ((v % 4294967296).toNat))) (pos + 4) ∧
    packArgs ((.s s, 115) :: rest) data pos
      = (match pack_string s data pos with
         | .error e => .error e
         | .ok (data2, pos2) => packArgs rest data2 pos2) ∧
    packArgs ((a, t) :: rest) data pos = packArgs rest data pos ∧
    create_osc_packet msg data
      = create_osc_packet ⟨msg.addr, msg.args.take msg.types.length, msg.types⟩ data :=
  ⟨packArgs_f bits rest data pos, packArgs_i v rest data pos hv1 hv2,
   packArgs_s s rest data pos, packArgs_skip a t rest data pos h102 h105 h115,
   create_take_args msg data⟩

/-- Witness for C8 at concrete pairs and a message with one unpaired argument. -/
theorem C8_builder_witness :
    ((-2147483648 ≤ (5 : Int) ∧ (5 : Int) < 2147483648) ∧
      ((44 : Nat) ≠ 102 ∧ (44 : Nat) ≠ 105 ∧ (44 : Nat) ≠ 115)) ∧
    (packArgs [(.f 1, 102)] [] 0 = packArgs [] (setSlice [] 0 4 (be4 1)) 4 ∧
     packArgs [(.i 5, 105)] [] 0
       = packArgs [] (setSlice [] 0 4 (be4 (((5 : Int) % 4294967296).toNat))) 4 ∧
     packArgs [(.s (ascii "x"), 115)] [] 0
       = (match pack_string (ascii "x") [] 0 with
          | .error e => .error e
          | .ok (data2, pos2) => packArgs [] data2 pos2) ∧
     packArgs [(OscArg.i 7, 44)] [] 0 = packArgs [] [] 0 ∧
     create_osc_packet ⟨ascii "/a", [.i 1, .i 2], [105]⟩ []
       = create_osc_packet ⟨ascii "/a", [OscArg.i 1, OscArg.i 2].take [105].length, [105]⟩ []) :=
  ⟨⟨⟨by decide, by decide⟩, ⟨by decide, by decide, by decide⟩⟩,
    C8_builder 1 5 (ascii "x") (.i 7) 44 [] [] 0 ⟨ascii "/a", [.i 1, .i 2], [105]⟩
      (by decide) (by decide) (by decide) (by decide) (by decide)⟩

/-- C9 counterexample: a transport I/O failure other than a timeout (in Python
any `OSError` subclass, e.g. `ConnectionResetError`) is swallowed by the
`except OSError: pass` clause: `poll` returns silently rather than propagating
it as the claim states. -/
theorem C9_counterexample :
    poll RecvResult.transportErr ([] : List (Buf × Nat)) = PollOutcome.silent ∧
    (PollOutcome.silent : PollOutcome Nat) ≠ PollOutcome.raised :=
  ⟨rfl, by decide⟩

/-- C9 amended: `poll` returns silently on a socket timeout and on every other
transport I/O failure alike — both are `OSError` subclasses caught by
`except OSError: pass` — while only exceptions outside `OSError`, such as the
parser's errors on a malformed received packet, propagate to the caller. -/
theorem C9_poll (dmap : List (Buf × Nat)) (ds : Nat) (buf : Buf) (e : PErr)
    (hp : parse_osc_packet buf ds = .error e) :
    poll RecvResult.timeoutErr dmap = .silent ∧
    poll RecvResult.transportErr dmap = .silent ∧
    poll RecvResult.otherExc dmap = .raised ∧
    poll (RecvResult.received ds buf) dmap = .raised := by
  refine ⟨rfl, rfl, rfl, ?_⟩
  simp [poll, hp]

/-- Witness for the amended C9 at a malformed one-byte packet. -/
theorem C9_poll_witness :
    parse_osc_packet [47] 1 = .error .noNull ∧
    (poll RecvResult.timeoutErr ([] : List (Buf × Nat)) = .silent ∧
     poll RecvResult.transportErr ([] : List (Buf × Nat)) = .silent ∧
     poll RecvResult.otherExc ([] : List (Buf × Nat)) = .raised ∧
     poll (RecvResult.received 1 [47]) ([] : List (Buf × Nat)) = .raised) :=
  ⟨rfl, C9_poll [] 1 [47] .noNull rfl⟩

/-- C10: `parse_osc_packet` ignores its `packet_size` argument entirely — the
result coincides for any two sizes — and concretely a packet_size of 0 still
lets the parser consume buffer bytes far beyond it, so stale bytes past the
received datagram's size become part of the message. -/
theorem C10_packet_size_ignored (data : Buf) (s1 s2 : Nat) :
    parse_osc_packet data s1 = parse_osc_packet data s2 ∧
    parse_osc_packet [47, 97, 0, 0, 44, 105, 0, 0, 0, 0, 0, 42] 0 =
      .ok ⟨[47, 97], [.i 42], [105]⟩ :=
  ⟨rfl, rfl⟩
